import Mathlib

/-!
Verification of the lecture-video RAG backend (`backend/app`): the
transcript segmenter (`VideoProcessor._chunk_transcript_by_time`,
`_chunk_transcript_by_content`, `create_transcript_chunks`), the processing
pipeline and its status writes (`VideoProcessor.process_video`,
`RAGService.process_video_embeddings`, upload route), the retrieval and
answer composition (`RAGService.retrieve_relevant_chunks`,
`generate_response`), and the record store (`DatabaseService`).

Modelling conventions: Python strings are `List Char`; Python floats
(timestamps, distances, scores) are exact rationals `ℚ`; fallible external
calls (ffmpeg, whisper, chromadb, gemini, sqlite commit) are oracle
parameters; `uuid4` is an injective id source passed as a parameter.
-/

namespace LectureRag

/-- Python text is modelled as a list of characters. -/
abbrev Str := List Char

/-- Convert a Lean string literal to the model's text type. -/
def strL (s : String) : Str := s.data

/-- ASCII whitespace, as recognised by Python's `str.strip()` / `str.split()`
and the regex `\s` (restricted to ASCII; the repository's texts are ASCII). -/
def isWsChar (c : Char) : Bool :=
  c = ' ' || c = '\t' || c = '\n' || c = '\r' || c = '\x0b' || c = '\x0c'

/-- Sentence terminators of the regex `[.!?]+` in `_chunk_transcript_by_content`. -/
def isTermChar (c : Char) : Bool :=
  c = '.' || c = '!' || c = '?'

/-- Python `str.strip()`: drop whitespace from both ends. -/
def pstrip (t : Str) : Str :=
  ((t.dropWhile isWsChar).reverse.dropWhile isWsChar).reverse

/-- Accumulator-passing worker for `words` (Python `str.split()`):
`acc` holds the reversed characters of the word currently being read. -/
def wordsAux : Str → Str → List Str
  | [], acc => if acc = [] then [] else [acc.reverse]
  | c :: cs, acc =>
    if isWsChar c then
      if acc = [] then wordsAux cs [] else acc.reverse :: wordsAux cs []
    else wordsAux cs (c :: acc)

/-- Python `str.split()` with no argument: maximal runs of non-whitespace. -/
def words (t : Str) : List Str := wordsAux t []

mutual

/-- Python `re.sub(r'\s+', ' ', t)`: collapse every whitespace run to one space. -/
def collapseWs : Str → Str
  | [] => []
  | c :: cs =>
    if isWsChar c then ' ' :: collapseWsSkip cs
    else c :: collapseWs cs

/-- After emitting the single space for a whitespace run, skip its remainder. -/
def collapseWsSkip : Str → Str
  | [] => []
  | c :: cs =>
    if isWsChar c then collapseWsSkip cs
    else c :: collapseWs cs

end

/-- The text clean-up in `create_transcript_chunks`:
`re.sub(r'\s+', ' ', text).strip()`. -/
def normalize (t : Str) : Str := pstrip (collapseWs t)

/-- `t` contains at least one non-whitespace character
(equivalently, Python's `t.strip()` is truthy). -/
def hasNonWs (t : Str) : Bool := t.any (fun c => ! isWsChar c)

/-- `t` contains a sentence terminator. -/
def hasTerm (t : Str) : Bool := t.any isTermChar

mutual

/-- Worker for `splitTerm`: `acc` holds the reversed current piece. -/
def splitTermAux : Str → Str → List Str
  | [], acc => [acc.reverse]
  | c :: cs, acc =>
    if isTermChar c then acc.reverse :: splitTermSkip cs
    else splitTermAux cs (c :: acc)

/-- Skip the remainder of a terminator run, then resume with an empty piece. -/
def splitTermSkip : Str → List Str
  | [] => [[]]
  | c :: cs =>
    if isTermChar c then splitTermSkip cs
    else splitTermAux cs [c]

end

/-- Python `re.split(r'[.!?]+', t)`: split on maximal terminator runs,
keeping empty border pieces (so the result is never `[]`). -/
def splitTerm (t : Str) : List Str := splitTermAux t []

/-- Python `'. '.join(sentences) + '.'` from `_chunk_transcript_by_content`. -/
def joinDotSp (l : List Str) : Str :=
  (List.intercalate ('.' :: ' ' :: []) l) ++ ['.']

/-- A transcript segment as produced by the transcription engine
(`transcription_result['segments']` entries: `start`, `end`, `text`;
the optional `words` key is never read by the chunkers' outputs' consumers). -/
structure Segment where
  start : ℚ
  stop : ℚ
  text : Str
deriving DecidableEq, Repr

/-- A raw chunk draft as built by the two chunking strategies: the dict
`{'text': …, 'start': …, 'end': …}` (the time strategy's unused `words`
key and the content strategy's internal `word_count` key are not part of
what `create_transcript_chunks` consumes). `start`/`stop` are `Option`
because the running chunk is initialised with `None`. -/
structure RawChunk where
  text : Str
  start : Option ℚ
  stop : Option ℚ
deriving DecidableEq, Repr

/-- One step of `VideoProcessor._chunk_transcript_by_time`'s segment loop.
State is `(chunks, current_chunk)`. -/
def timeStep (dur : ℚ) (st : List RawChunk × RawChunk) (seg : Segment) :
    List RawChunk × RawChunk :=
  let chunks := st.1
  let cur := st.2
  let sText := pstrip seg.text
  -- `if current_chunk['start'] is None: current_chunk['start'] = segment_start`
  let curStart : ℚ := match cur.start with | none => seg.start | some a => a
  if seg.stop - curStart > dur ∧ cur.text ≠ [] then
    -- close the current chunk (`current_chunk['end']` is already set and
    -- `current_chunk.get('end', segment_start)` returns it unchanged)
    (chunks ++ [{ text := cur.text, start := some curStart, stop := cur.stop }],
     { text := sText, start := some seg.start, stop := some seg.stop })
  else
    (chunks,
     { text := if cur.text = [] then sText else cur.text ++ ' ' :: sText,
       start := some curStart, stop := some seg.stop })

/-- `VideoProcessor._chunk_transcript_by_time(segments, chunk_duration)`. -/
def chunkByTime (dur : ℚ) (segs : List Segment) : List RawChunk :=
  let res := segs.foldl (timeStep dur) ([], { text := [], start := none, stop := none })
  if res.2.text ≠ [] then res.1 ++ [res.2] else res.1

/-- The running chunk of `_chunk_transcript_by_content`
(`{'text', 'start', 'end', 'word_count'}`). -/
structure CCur where
  text : Str
  start : Option ℚ
  stop : Option ℚ
  wc : ℕ
deriving DecidableEq, Repr

/-- One step of `VideoProcessor._chunk_transcript_by_content`'s segment loop. -/
def contentStep (maxW : ℕ) (st : List RawChunk × CCur) (seg : Segment) :
    List RawChunk × CCur :=
  let chunks := st.1
  let cur := st.2
  let sText := pstrip seg.text
  let sw := (words sText).length
  let curStart : ℚ := match cur.start with | none => seg.start | some a => a
  if cur.wc + sw > maxW ∧ cur.text ≠ [] then
    let sentences := splitTerm cur.text
    -- keep complete sentences in the closed chunk
    let closedText :=
      if sentences.length > 1 then pstrip (joinDotSp sentences.dropLast)
      else cur.text
    let remaining :=
      if sentences.length > 1 then pstrip (sentences.getLastD []) else []
    let newText := if remaining ≠ [] then remaining ++ ' ' :: sText else sText
    let newWc :=
      if remaining ≠ [] then (words (remaining ++ ' ' :: sText)).length else sw
    (chunks ++ [{ text := closedText, start := some curStart, stop := cur.stop }],
     { text := newText, start := some seg.start, stop := some seg.stop, wc := newWc })
  else
    (chunks,
     { text := if cur.text = [] then sText else cur.text ++ ' ' :: sText,
       start := some curStart, stop := some seg.stop, wc := cur.wc + sw })

/-- `VideoProcessor._chunk_transcript_by_content(segments, max_words)`,
projected to the fields `create_transcript_chunks` reads. -/
def chunkByContent (maxW : ℕ) (segs : List Segment) : List RawChunk :=
  let res := segs.foldl (contentStep maxW) ([], { text := [], start := none, stop := none, wc := 0 })
  if res.2.text ≠ [] then
    res.1 ++ [{ text := res.2.text, start := res.2.start, stop := res.2.stop }]
  else res.1

/-- The start time `create_transcript_chunks` would read off a raw chunk
(`chunk['start']`; the default never fires on emitted chunks). -/
def rawStart (c : RawChunk) : ℚ := c.start.getD 0

/-- The hybrid strategy's per-chunk refinement in `create_transcript_chunks`:
a time chunk of more than 200 words is re-split by content chunking over a
single pseudo-segment carrying the whole chunk. -/
def hybridSplit (c : RawChunk) : List RawChunk :=
  if (words c.text).length > 200 then
    chunkByContent 150 [{ start := c.start.getD 0, stop := c.stop.getD 0, text := c.text }]
  else [c]

/-- The chunking strategies of `create_transcript_chunks` (any string other
than `"time"`/`"content"` selects the hybrid branch). -/
inductive Strategy
  | time | content | hybrid
deriving DecidableEq, Repr

/-- `TranscriptChunk` (models/video.py). -/
structure TranscriptChunk where
  id : Str
  video_id : Str
  text : Str
  start_time : ℚ
  end_time : ℚ
  chunk_index : ℕ
  word_count : ℕ
deriving DecidableEq, Repr

/-- The raw chunk list `create_transcript_chunks` builds before converting to
`TranscriptChunk` objects: strategy dispatch, hybrid = time(120) then re-split
any chunk with more than 200 words via content(150) on one pseudo-segment. -/
def rawChunks (strategy : Strategy) (segments : List Segment) : List RawChunk :=
  match strategy with
  | .time => chunkByTime 90 segments
  | .content => chunkByContent 150 segments
  | .hybrid => (chunkByTime 120 segments).flatMap hybridSplit

/-- `VideoProcessor.create_transcript_chunks(video_id, transcription_result,
strategy)` given the transcription's segment list. `freshId` models the
`uuid.uuid4()` draws (`i` is the `enumerate` index). A raw chunk's
`start`/`end` are always set when it is emitted, so `getD 0` never fires. -/
def createTranscriptChunks (videoId : Str) (freshId : ℕ → Str)
    (segments : List Segment) (strategy : Strategy) : List TranscriptChunk :=
  if segments = [] then []
  else
    let raw := rawChunks strategy segments
    raw.enum.filterMap (fun p =>
      let t := normalize p.2.text
      if t = [] then none
      else some
        { id := freshId p.1, video_id := videoId, text := t,
          start_time := p.2.start.getD 0, end_time := p.2.stop.getD 0,
          chunk_index := p.1, word_count := (words t).length })

/-! ## Status state machine and record store -/

/-- `ProcessingStatus` (models/video.py). -/
inductive ProcessingStatus
  | uploading | processing | transcribing | chunking | embedding | completed | failed
deriving DecidableEq, Repr

/-- A write of the `processing_status` / `processing_error` columns of the
`videos` table: `putVideo` is a full-record `save_video_metadata` (projected
to the two status columns), `setStatus` is `update_processing_status`. -/
inductive DbWrite
  | putVideo (status : ProcessingStatus) (error : Option Str)
  | setStatus (status : ProcessingStatus) (error : Option Str)
deriving DecidableEq, Repr

/-- The status value carried by a write. -/
def DbWrite.status : DbWrite → ProcessingStatus
  | .putVideo s _ => s
  | .setStatus s _ => s

/-- A row of the `videos` table (`DatabaseService._create_tables`). The
`upload_timestamp` ISO string is kept opaque. -/
structure VideoRecord where
  id : Str
  filename : Str
  title : Option Str
  duration : ℚ
  file_size : ℤ
  upload_timestamp : Str
  processing_status : ProcessingStatus
  audio_path : Option Str
  transcript_path : Option Str
  total_chunks : Option ℤ
  processing_error : Option Str
deriving DecidableEq, Repr

/-- Effect of `DatabaseService.update_processing_status(video_id, status,
error)` on one row: the SQL `UPDATE videos SET processing_status = ?,
processing_error = ? WHERE id = ?`. -/
def updateProcessingStatusRow (videoId : Str) (status : ProcessingStatus)
    (error : Option Str) (r : VideoRecord) : VideoRecord :=
  if r.id = videoId then
    { r with processing_status := status, processing_error := error }
  else r

/-- `update_processing_status` over the whole `videos` table. -/
def updateProcessingStatus (videoId : Str) (status : ProcessingStatus)
    (error : Option Str) (table : List VideoRecord) : List VideoRecord :=
  table.map (updateProcessingStatusRow videoId status error)

/-- SQLite `INSERT OR REPLACE` into `transcript_chunks` for one chunk:
a row with the same primary key `id` is replaced, otherwise the row is
appended. -/
def insertOrReplaceChunk (table : List TranscriptChunk) (c : TranscriptChunk) :
    List TranscriptChunk :=
  if table.any (fun r => r.id = c.id) then
    table.map (fun r => if r.id = c.id then c else r)
  else table ++ [c]

/-- `DatabaseService.save_transcript_chunks(chunks)`: `executemany` of
`INSERT OR REPLACE`, in list order. -/
def saveTranscriptChunks (table : List TranscriptChunk)
    (chunks : List TranscriptChunk) : List TranscriptChunk :=
  chunks.foldl insertOrReplaceChunk table

/-- Insertion step for `ORDER BY chunk_index` (ties keep scan order, which
SQLite leaves unspecified; the claims proved below avoid ties). -/
def insertByIdx (c : TranscriptChunk) : List TranscriptChunk → List TranscriptChunk
  | [] => [c]
  | x :: xs =>
    if x.chunk_index ≤ c.chunk_index then x :: insertByIdx c xs
    else c :: x :: xs

/-- Sort by `chunk_index` (insertion sort). -/
def sortByIdx : List TranscriptChunk → List TranscriptChunk
  | [] => []
  | x :: xs => insertByIdx x (sortByIdx xs)

/-- `DatabaseService.get_transcript_chunks(video_id)`: `SELECT * FROM
transcript_chunks WHERE video_id = ? ORDER BY chunk_index`. -/
def getTranscriptChunks (table : List TranscriptChunk) (videoId : Str) :
    List TranscriptChunk :=
  sortByIdx (table.filter (fun r => r.video_id = videoId))

/-! ## Processing pipeline (`VideoProcessor.process_video`,
`RAGService.process_video_embeddings`, upload route) -/

/-- The in-memory `VideoMetadata` object built by `upload_video`
(routes/video.py): `processing_status=ProcessingStatus.UPLOADING`, the
optional fields at their pydantic default `None`. `process_video` mutates
`audio_path`, `transcript_path` and `total_chunks` on this object but never
its `processing_status`/`processing_error`. -/
structure VideoMetadata where
  id : Str
  filename : Str
  title : Option Str
  duration : ℚ
  file_size : ℤ
  processing_status : ProcessingStatus
  audio_path : Option Str
  transcript_path : Option Str
  total_chunks : Option ℤ
  processing_error : Option Str
deriving DecidableEq, Repr

/-- `upload_video`'s `VideoMetadata(...)` construction. -/
def mkUploadMeta (id filename : Str) (title : Option Str) (duration : ℚ)
    (fileSize : ℤ) : VideoMetadata :=
  { id := id, filename := filename, title := title, duration := duration,
    file_size := fileSize, processing_status := .uploading,
    audio_path := none, transcript_path := none, total_chunks := none,
    processing_error := none }

/-- Oracle outcomes of the external engines used by one `process_video` run:
ffmpeg audio extraction success, the whisper result (`None` on failure; on
success its `segments` list), and the sqlite commit of the chunk batch.
Saving the transcript text file is best-effort and affects no status, so it
is not modelled. -/
structure PipelineEnv where
  audioOk : Bool
  transcription : Option (List Segment)
  saveChunksOk : Bool
  freshId : ℕ → Str

/-- `VideoProcessor.process_video`: returns the Python result and the
sequence of `processing_status` writes it issues, in order
(`update_processing_status` calls and the status column of the two
`save_video_metadata` calls). -/
def processVideo (env : PipelineEnv) (meta : VideoMetadata) :
    Bool × List DbWrite :=
  let w0 : List DbWrite := [.setStatus .processing none]
  if env.audioOk = false then
    (false, w0 ++ [.setStatus .failed (some (strL "Audio extraction failed"))])
  else
    -- save_video_metadata after setting audio_path (status field unchanged)
    let w1 := w0 ++ [DbWrite.putVideo meta.processing_status meta.processing_error]
    let w2 := w1 ++ [DbWrite.setStatus .transcribing none]
    match env.transcription with
    | none =>
      (false, w2 ++ [.setStatus .failed (some (strL "Transcription failed"))])
    | some segments =>
      let w3 := w2 ++ [DbWrite.setStatus .chunking none]
      let chunks := createTranscriptChunks meta.id env.freshId segments .hybrid
      if chunks = [] then
        (false, w3 ++ [.setStatus .failed (some (strL "Chunking failed"))])
      else if env.saveChunksOk = false then
        (false, w3 ++ [.setStatus .failed (some (strL "Failed to save chunks"))])
      else
        -- save_video_metadata after setting total_chunks (status field unchanged)
        let w4 := w3 ++ [DbWrite.putVideo meta.processing_status meta.processing_error]
        (true, w4 ++ [.setStatus .embedding none])

/-- Oracle outcomes for one `RAGService.process_video_embeddings` run: the
chunks read back from the record store, and whether `create_embeddings`
succeeds. -/
structure EmbedEnv where
  dbChunks : List TranscriptChunk
  embedOk : Bool

/-- `RAGService.process_video_embeddings`: result and status writes. -/
def processVideoEmbeddings (env : EmbedEnv) : Bool × List DbWrite :=
  let w0 : List DbWrite := [.setStatus .embedding none]
  if env.dbChunks = [] then
    (false, w0 ++ [.setStatus .failed (some (strL "No transcript chunks found"))])
  else if env.embedOk = false then
    (false, w0 ++ [.setStatus .failed (some (strL "Embedding creation failed"))])
  else
    (true, w0 ++ [.setStatus .completed none])

/-- All `processing_status` writes of a fresh single-threaded run: the upload
route's `save_video_metadata`, then `process_video`, then — when it succeeds
— `process_video_embeddings` (the background task `process_video_pipeline`). -/
def fullRunWrites (env : PipelineEnv) (eenv : EmbedEnv) (meta : VideoMetadata) :
    List DbWrite :=
  let uploadW : List DbWrite := [.putVideo meta.processing_status meta.processing_error]
  let pv := processVideo env meta
  uploadW ++ pv.2 ++ (if pv.1 then (processVideoEmbeddings eenv).2 else [])

/-! ## Retrieval and answer composition (`RAGService`) -/

/-- One nearest-neighbour match as returned by the vector index's `query`
(document, stored metadata, id, distance). -/
structure QueryMatch where
  id : Str
  document : Str
  start_time : ℚ
  end_time : ℚ
  formatted_timestamp : Str
  distance : ℚ
deriving DecidableEq, Repr

/-- `RelevantChunk` (models/chat.py). -/
structure RelevantChunk where
  chunk_id : Str
  text : Str
  start_time : ℚ
  end_time : ℚ
  relevance_score : ℚ
  formatted_timestamp : Str
deriving DecidableEq, Repr

/-- The distance-to-relevance conversion in `retrieve_relevant_chunks`:
`max(0, 1 - distance)`. -/
def relevanceScore (d : ℚ) : ℚ := max 0 (1 - d)

/-- `RAGService.retrieve_relevant_chunks`: `collection = none` models
`get_collection` raising (no index for the video yet), which the `except`
branch turns into `[]`; otherwise each match is converted to a
`RelevantChunk`. -/
def retrieveRelevantChunks (collection : Option (List QueryMatch)) :
    List RelevantChunk :=
  match collection with
  | none => []
  | some ms =>
    ms.map (fun m =>
      { chunk_id := m.id, text := m.document, start_time := m.start_time,
        end_time := m.end_time, relevance_score := relevanceScore m.distance,
        formatted_timestamp := m.formatted_timestamp })

/-- `ChatResponse` (models/chat.py), without the wall-clock
`processing_time` field, which is not modelled. -/
structure ChatResponse where
  answer : Str
  relevant_chunks : List RelevantChunk
  video_id : Str
  confidence_score : ℚ
deriving DecidableEq, Repr

/-- The fixed no-retrieval answer of `generate_response`. -/
def noInfoAnswer : Str :=
  strL "I couldn\x27t find relevant information in the lecture to answer your question. Please try rephrasing or asking about a different topic."

/-- The fixed degraded answer of `generate_response`'s `except` branch. -/
def techDifficultyAnswer : Str :=
  strL "I\x27m experiencing technical difficulties. Please try again later."

/-- The fallback answer when the generative engine returns empty text. -/
def emptyGenAnswer : Str :=
  strL "I\x27m unable to generate a response at the moment."

/-- `RAGService.generate_response` given the video's vector collection and
the generative engine's outcome (`gen = none` models `generate_content`
raising — or the Gemini model being unconfigured; `some t` its returned
text, possibly empty). -/
def generateResponse (videoId : Str) (collection : Option (List QueryMatch))
    (gen : Option Str) : ChatResponse :=
  let relevant_chunks := retrieveRelevantChunks collection
  if relevant_chunks = [] then
    { answer := noInfoAnswer, relevant_chunks := [], video_id := videoId,
      confidence_score := 0 }
  else
    match gen with
    | none =>
      -- exception path: `relevant_chunks` is in `locals()`, confidence 0.0
      { answer := techDifficultyAnswer, relevant_chunks := relevant_chunks,
        video_id := videoId, confidence_score := 0 }
    | some t =>
      let answer := if t = [] then emptyGenAnswer else pstrip t
      let avg := (relevant_chunks.map (fun c => c.relevance_score)).sum
                   / relevant_chunks.length
      { answer := answer, relevant_chunks := relevant_chunks,
        video_id := videoId,
        confidence_score := min ((95 : ℚ) / 100) avg }

/-! ## Proof infrastructure -/

/-- Loop invariant of `_chunk_transcript_by_time` over the remaining
segments `segs` and the state `st = (chunks, current_chunk)`: every closed
chunk has visible text; the running chunk's text is empty or visible; a
non-empty running chunk has its start set; closed chunk starts are sorted,
below the running chunk's start and below every remaining segment's start;
an unset start means nothing was processed yet. -/
structure TimeInv (segs : List Segment) (st : List RawChunk × RawChunk) : Prop where
  textsOk : ∀ c ∈ st.1, hasNonWs c.text = true
  curOk : st.2.text = [] ∨ hasNonWs st.2.text = true
  curStartSome : st.2.text ≠ [] → st.2.start ≠ none
  sorted : (st.1.map rawStart).Pairwise (fun a b => a ≤ b)
  belowCur : ∀ c ∈ st.1, ∀ q, st.2.start = some q → rawStart c ≤ q
  belowSegs : ∀ c ∈ st.1, ∀ s ∈ segs, rawStart c ≤ s.start
  curBelowSegs : ∀ q, st.2.start = some q → ∀ s ∈ segs, q ≤ s.start
  startNoneNil : st.2.start = none → st.1 = []

/-- Loop invariant of `_chunk_transcript_by_content`, same reading as
`TimeInv` with the running word count consistent with the running text. -/
structure ContentInv (segs : List Segment) (st : List RawChunk × CCur) : Prop where
  textsOk : ∀ c ∈ st.1, hasNonWs c.text = true
  curOk : st.2.text = [] ∨ hasNonWs st.2.text = true
  curStartSome : st.2.text ≠ [] → st.2.start ≠ none
  sorted : (st.1.map rawStart).Pairwise (fun a b => a ≤ b)
  belowCur : ∀ c ∈ st.1, ∀ q, st.2.start = some q → rawStart c ≤ q
  belowSegs : ∀ c ∈ st.1, ∀ s ∈ segs, rawStart c ≤ s.start
  curBelowSegs : ∀ q, st.2.start = some q → ∀ s ∈ segs, q ≤ s.start
  startNoneNil : st.2.start = none → st.1 = []

/-- The word-count conclusion of content-bounded chunking relative to a class
`S` of admissible segments: a chunk respects `maxW` unless its text is one
(stripped) segment that alone exceeds `maxW`. -/
def WordBound (maxW : ℕ) (S : Segment → Prop) (t : Str) : Prop :=
  (words t).length ≤ maxW ∨
    ∃ s, S s ∧ t = pstrip s.text ∧ maxW < (words (pstrip s.text)).length

/-! ## Text-processing lemmas -/

theorem mem_dropWhile_of_not {p : Char → Bool} {c : Char} {l : Str}
    (hm : c ∈ l) (hc : p c = false) : c ∈ l.dropWhile p := by
  induction l with
  | nil => simp at hm
  | cons x xs ih =>
    rw [List.dropWhile_cons]
    by_cases hx : p x = true
    · rw [if_pos hx]
      rcases List.mem_cons.1 hm with h | h
      · subst h; rw [hc] at hx; cases hx
      · exact ih h
    · rw [if_neg hx]; exact hm

theorem dropWhile_head_false {p : Char → Bool} {l rest : Str} {c : Char}
    (h : l.dropWhile p = c :: rest) : p c = false := by
  induction l with
  | nil => simp at h
  | cons x xs ih =>
    rw [List.dropWhile_cons] at h
    by_cases hx : p x = true
    · rw [if_pos hx] at h; exact ih h
    · rw [if_neg hx] at h
      injection h with h1 _
      subst h1
      exact Bool.not_eq_true _ ▸ (by simpa using hx)

theorem mem_pstrip_of_not_ws {c : Char} {t : Str}
    (hm : c ∈ t) (hc : isWsChar c = false) : c ∈ pstrip t := by
  unfold pstrip
  rw [List.mem_reverse]
  refine mem_dropWhile_of_not ?_ hc
  rw [List.mem_reverse]
  exact mem_dropWhile_of_not hm hc

theorem mem_of_mem_pstrip {c : Char} {t : Str} (hm : c ∈ pstrip t) : c ∈ t := by
  unfold pstrip at hm
  rw [List.mem_reverse] at hm
  have h1 := (List.dropWhile_sublist _).subset hm
  rw [List.mem_reverse] at h1
  exact (List.dropWhile_sublist _).subset h1

theorem hasNonWs_iff {t : Str} :
    hasNonWs t = true ↔ ∃ c ∈ t, isWsChar c = false := by
  unfold hasNonWs
  rw [List.any_eq_true]
  simp

theorem hasNonWs_of_mem {c : Char} {t : Str}
    (hm : c ∈ t) (hc : isWsChar c = false) : hasNonWs t = true :=
  hasNonWs_iff.2 ⟨c, hm, hc⟩

theorem pstrip_ne_nil_of_hasNonWs {t : Str} (h : hasNonWs t = true) :
    pstrip t ≠ [] := by
  obtain ⟨c, hm, hc⟩ := hasNonWs_iff.1 h
  exact List.ne_nil_of_mem (mem_pstrip_of_not_ws hm hc)

theorem hasNonWs_pstrip_of_ne_nil {t : Str} (h : pstrip t ≠ []) :
    hasNonWs (pstrip t) = true := by
  rcases hd : (((t.dropWhile isWsChar).reverse).dropWhile isWsChar) with _ | ⟨c, rest⟩
  · exact absurd (by unfold pstrip; rw [hd]; rfl) h
  · have hc : isWsChar c = false := dropWhile_head_false hd
    refine hasNonWs_of_mem ?_ hc
    unfold pstrip
    rw [hd, List.mem_reverse]
    exact List.mem_cons_self ..

theorem hasNonWs_append_left {a b : Str} (h : hasNonWs a = true) :
    hasNonWs (a ++ b) = true := by
  obtain ⟨c, hm, hc⟩ := hasNonWs_iff.1 h
  exact hasNonWs_of_mem (List.mem_append_left _ hm) hc

theorem mem_collapseWs_of_not_ws {c : Char} {t : Str}
    (hm : c ∈ t) (hc : isWsChar c = false) : c ∈ collapseWs t := by
  suffices h : ∀ u : Str, (c ∈ u → c ∈ collapseWs u) ∧ (c ∈ u → c ∈ collapseWsSkip u) from
    (h t).1 hm
  intro u
  induction u with
  | nil => simp
  | cons x cs ih =>
    constructor
    · intro hmem
      simp only [collapseWs]
      by_cases hx : isWsChar x = true
      · rw [if_pos hx]
        rcases List.mem_cons.1 hmem with h | h
        · subst h; rw [hc] at hx; cases hx
        · exact List.mem_cons_of_mem _ (ih.2 h)
      · rw [if_neg hx]
        rcases List.mem_cons.1 hmem with h | h
        · subst h; exact List.mem_cons_self ..
        · exact List.mem_cons_of_mem _ (ih.1 h)
    · intro hmem
      simp only [collapseWsSkip]
      by_cases hx : isWsChar x = true
      · rw [if_pos hx]
        rcases List.mem_cons.1 hmem with h | h
        · subst h; rw [hc] at hx; cases hx
        · exact ih.2 h
      · rw [if_neg hx]
        rcases List.mem_cons.1 hmem with h | h
        · subst h; exact List.mem_cons_self ..
        · exact List.mem_cons_of_mem _ (ih.1 h)

theorem normalize_ne_nil_of_hasNonWs {t : Str} (h : hasNonWs t = true) :
    normalize t ≠ [] := by
  obtain ⟨c, hm, hc⟩ := hasNonWs_iff.1 h
  exact List.ne_nil_of_mem
    (mem_pstrip_of_not_ws (mem_collapseWs_of_not_ws hm hc) hc)

theorem wordsAux_append_space (b : Str) :
    ∀ (a acc : Str), wordsAux (a ++ ' ' :: b) acc = wordsAux a acc ++ wordsAux b []
  | [], acc => by
    by_cases h : acc = [] <;>
      simp [wordsAux, h, show isWsChar ' ' = true from by decide]
  | c :: a, acc => by
    rw [List.cons_append]
    by_cases hc : isWsChar c = true
    · by_cases h : acc = [] <;>
        simp [wordsAux, hc, h, wordsAux_append_space b a]
    · rw [Bool.not_eq_true] at hc
      simp [wordsAux, hc, wordsAux_append_space b a]

theorem words_append_space (a b : Str) :
    words (a ++ ' ' :: b) = words a ++ words b :=
  wordsAux_append_space b a []

theorem words_nil : words ([] : Str) = [] := rfl

theorem splitTermAux_of_no_term :
    ∀ (t acc : Str), (∀ c ∈ t, isTermChar c = false) →
      splitTermAux t acc = [acc.reverse ++ t]
  | [], acc, _ => by simp [splitTermAux]
  | c :: t, acc, h => by
    have hc : isTermChar c = false := h c (List.mem_cons_self ..)
    rw [splitTermAux, if_neg (by simp [hc]),
      splitTermAux_of_no_term t (c :: acc)
        (fun x hx => h x (List.mem_cons_of_mem _ hx))]
    simp

theorem hasTerm_eq_false_iff {t : Str} :
    hasTerm t = false ↔ ∀ c ∈ t, isTermChar c = false := by
  unfold hasTerm
  rw [List.any_eq_false]
  simp

theorem splitTerm_of_not_hasTerm {t : Str} (h : hasTerm t = false) :
    splitTerm t = [t] := by
  have := splitTermAux_of_no_term t [] (hasTerm_eq_false_iff.1 h)
  simpa [splitTerm] using this

theorem hasTerm_pstrip_eq_false {t : Str} (h : hasTerm t = false) :
    hasTerm (pstrip t) = false := by
  rw [hasTerm_eq_false_iff] at h ⊢
  exact fun c hc => h c (mem_of_mem_pstrip hc)

theorem hasTerm_append_eq_false {a b : Str}
    (ha : hasTerm a = false) (hb : hasTerm b = false) :
    hasTerm (a ++ b) = false := by
  rw [hasTerm_eq_false_iff] at ha hb ⊢
  intro c hc
  rcases List.mem_append.1 hc with h | h
  · exact ha c h
  · exact hb c h

/-- Text of the form `pstrip u` is empty or visibly non-blank. -/
theorem pstrip_nil_or_hasNonWs (u : Str) :
    pstrip u = [] ∨ hasNonWs (pstrip u) = true := by
  by_cases h : pstrip u = []
  · exact Or.inl h
  · exact Or.inr (hasNonWs_pstrip_of_ne_nil h)

/-! ## Segmenter invariants -/

/-- Invariants preserved along a `foldl` hold of its result. -/
theorem foldl_inv {α σ : Type} {f : σ → α → σ} {P : List α → σ → Prop}
    (step : ∀ a rest st, P (a :: rest) st → P rest (f st a)) :
    ∀ (l : List α) (st : σ), P l st → P [] (l.foldl f st)
  | [], _, h => h
  | a :: l, st, h => foldl_inv step l (f st a) (step a l st h)

theorem timeStep_inv {dur : ℚ} {seg : Segment} {rest : List Segment}
    {st : List RawChunk × RawChunk}
    (hseg : ∀ s ∈ rest, seg.start ≤ s.start)
    (inv : TimeInv (seg :: rest) st) :
    TimeInv rest (timeStep dur st seg) := by
  obtain ⟨chunks, cur⟩ := st
  rcases hst : cur.start with _ | q
  · -- start not yet initialised: nothing was processed, the guard is false
    have hnil : chunks = [] := inv.startNoneNil hst
    have htext : cur.text = [] := by
      by_contra h
      exact inv.curStartSome h hst
    have hres : timeStep dur (chunks, cur) seg =
        (chunks, { text := pstrip seg.text, start := some seg.start,
                   stop := some seg.stop }) := by
      simp [timeStep, hst, htext]
    rw [hres]
    subst hnil
    exact {
      textsOk := by simp
      curOk := pstrip_nil_or_hasNonWs seg.text
      curStartSome := by simp
      sorted := by simp
      belowCur := by simp
      belowSegs := by simp
      curBelowSegs := by
        intro p hp s hs
        injection hp with hp
        subst hp
        exact hseg s hs
      startNoneNil := by simp }
  · have hqseg : q ≤ seg.start := inv.curBelowSegs q hst seg (List.mem_cons_self ..)
    by_cases hcl : seg.stop - q > dur ∧ cur.text ≠ []
    · have hres : timeStep dur (chunks, cur) seg =
          (chunks ++ [{ text := cur.text, start := some q, stop := cur.stop }],
           { text := pstrip seg.text, start := some seg.start,
             stop := some seg.stop }) := by
        simp [timeStep, hst, hcl.1, hcl.2]
      rw [hres]
      exact {
        textsOk := by
          intro c hc
          rcases List.mem_append.1 hc with h | h
          · exact inv.textsOk c h
          · rw [List.mem_singleton.1 h]
            exact (inv.curOk).resolve_left hcl.2
        curOk := pstrip_nil_or_hasNonWs seg.text
        curStartSome := by simp
        sorted := by
          rw [List.map_append, List.pairwise_append]
          refine ⟨inv.sorted, by simp, ?_⟩
          intro a ha b hb
          simp only [List.map_cons, List.map_nil, List.mem_singleton] at hb
          obtain ⟨c, hc, rfl⟩ := List.mem_map.1 ha
          rw [hb]
          simpa [rawStart] using inv.belowCur c hc q hst
        belowCur := by
          intro c hc p hp
          injection hp with hp
          subst hp
          rcases List.mem_append.1 hc with h | h
          · exact inv.belowSegs c h seg (List.mem_cons_self ..)
          · rw [List.mem_singleton.1 h]
            simpa [rawStart] using hqseg
        belowSegs := by
          intro c hc s hs
          rcases List.mem_append.1 hc with h | h
          · exact inv.belowSegs c h s (List.mem_cons_of_mem _ hs)
          · rw [List.mem_singleton.1 h]
            simpa [rawStart] using inv.curBelowSegs q hst s (List.mem_cons_of_mem _ hs)
        curBelowSegs := by
          intro p hp s hs
          injection hp with hp
          subst hp
          exact hseg s hs
        startNoneNil := by simp }
    · have hres : timeStep dur (chunks, cur) seg =
          (chunks, { text := if cur.text = [] then pstrip seg.text
                             else cur.text ++ ' ' :: pstrip seg.text,
                     start := some q, stop := some seg.stop }) := by
        simp only [timeStep, hst]
        rw [if_neg hcl]
      rw [hres]
      exact {
        textsOk := inv.textsOk
        curOk := by
          by_cases h : cur.text = []
          · simpa [h] using pstrip_nil_or_hasNonWs seg.text
          · simp only [if_neg h]
            exact Or.inr (hasNonWs_append_left ((inv.curOk).resolve_left h))
        curStartSome := by simp
        sorted := inv.sorted
        belowCur := by
          intro c hc p hp
          injection hp with hp
          subst hp
          exact inv.belowCur c hc q hst
        belowSegs := fun c hc s hs => inv.belowSegs c hc s (List.mem_cons_of_mem _ hs)
        curBelowSegs := by
          intro p hp s hs
          injection hp with hp
          subst hp
          exact inv.curBelowSegs q hst s (List.mem_cons_of_mem _ hs)
        startNoneNil := by simp }

theorem chunkByTime_props (dur : ℚ) (segs : List Segment)
    (hs : segs.Pairwise (fun a b => a.start ≤ b.start)) :
    (∀ c ∈ chunkByTime dur segs, hasNonWs c.text = true) ∧
    ((chunkByTime dur segs).map rawStart).Pairwise (fun a b => a ≤ b) := by
  have h0 : segs.Pairwise (fun a b => a.start ≤ b.start) ∧
      TimeInv segs ([], { text := [], start := none, stop := none }) := by
    refine ⟨hs, ?_⟩
    exact {
      textsOk := by simp
      curOk := Or.inl rfl
      curStartSome := by simp
      sorted := by simp
      belowCur := by simp
      belowSegs := by simp
      curBelowSegs := by simp
      startNoneNil := by simp }
  have hend := foldl_inv
    (P := fun l st => l.Pairwise (fun a b => a.start ≤ b.start) ∧ TimeInv l st)
    (f := timeStep dur)
    (fun a rest st h =>
      ⟨(List.pairwise_cons.1 h.1).2, timeStep_inv (List.pairwise_cons.1 h.1).1 h.2⟩)
    segs _ h0
  obtain ⟨-, inv⟩ := hend
  unfold chunkByTime
  set res := segs.foldl (timeStep dur) ([], { text := [], start := none, stop := none })
  by_cases h : res.2.text ≠ []
  · rw [if_pos h]
    have hstart : res.2.start ≠ none := inv.curStartSome h
    rcases hq : res.2.start with _ | q
    · exact absurd hq hstart
    constructor
    · intro c hc
      rcases List.mem_append.1 hc with hm | hm
      · exact inv.textsOk c hm
      · rw [List.mem_singleton.1 hm]
        exact (inv.curOk).resolve_left h
    · rw [List.map_append, List.pairwise_append]
      refine ⟨inv.sorted, by simp, ?_⟩
      intro a ha b hb
      simp only [List.map_cons, List.map_nil, List.mem_singleton] at hb
      obtain ⟨c, hc, rfl⟩ := List.mem_map.1 ha
      rw [hb]
      simpa [rawStart, hq] using inv.belowCur c hc q hq
  · rw [if_neg h]
    exact ⟨inv.textsOk, inv.sorted⟩

theorem hasNonWs_closed_split {t : Str} :
    hasNonWs (pstrip (joinDotSp ((splitTerm t).dropLast))) = true := by
  have hdot : ('.' : Char) ∈ joinDotSp ((splitTerm t).dropLast) := by
    unfold joinDotSp
    exact List.mem_append_right _ (List.mem_singleton.2 rfl)
  exact hasNonWs_of_mem (mem_pstrip_of_not_ws hdot (by decide)) (by decide)

theorem contentStep_inv {maxW : ℕ} {seg : Segment} {rest : List Segment}
    {st : List RawChunk × CCur}
    (hseg : ∀ s ∈ rest, seg.start ≤ s.start)
    (inv : ContentInv (seg :: rest) st) :
    ContentInv rest (contentStep maxW st seg) := by
  obtain ⟨chunks, cur⟩ := st
  rcases hst : cur.start with _ | q
  · -- start not yet initialised: nothing was processed, the guard is false
    have hnil : chunks = [] := inv.startNoneNil hst
    have htext : cur.text = [] := by
      by_contra h
      exact inv.curStartSome h hst
    have hres : contentStep maxW (chunks, cur) seg =
        (chunks, { text := pstrip seg.text, start := some seg.start,
                   stop := some seg.stop,
                   wc := cur.wc + (words (pstrip seg.text)).length }) := by
      simp [contentStep, hst, htext]
    rw [hres]
    subst hnil
    exact {
      textsOk := by simp
      curOk := pstrip_nil_or_hasNonWs seg.text
      curStartSome := by simp
      sorted := by simp
      belowCur := by simp
      belowSegs := by simp
      curBelowSegs := by
        intro p hp s hs
        injection hp with hp
        subst hp
        exact hseg s hs
      startNoneNil := by simp }
  · have hqseg : q ≤ seg.start := inv.curBelowSegs q hst seg (List.mem_cons_self ..)
    by_cases hcl : cur.wc + (words (pstrip seg.text)).length > maxW ∧ cur.text ≠ []
    · -- close the current chunk
      have hrest : ∀ (closedText newText : Str) (newWc : ℕ),
          hasNonWs closedText = true →
          (newText = [] ∨ hasNonWs newText = true) →
          ContentInv rest
            (chunks ++ [{ text := closedText, start := some q, stop := cur.stop }],
             { text := newText, start := some seg.start, stop := some seg.stop,
               wc := newWc }) := by
        intro closedText newText newWc hclosed hnew
        exact {
          textsOk := by
            intro c hc
            rcases List.mem_append.1 hc with h | h
            · exact inv.textsOk c h
            · rw [List.mem_singleton.1 h]
              exact hclosed
          curOk := hnew
          curStartSome := by simp
          sorted := by
            rw [List.map_append, List.pairwise_append]
            refine ⟨inv.sorted, by simp, ?_⟩
            intro a ha b hb
            simp only [List.map_cons, List.map_nil, List.mem_singleton] at hb
            obtain ⟨c, hc, rfl⟩ := List.mem_map.1 ha
            rw [hb]
            simpa [rawStart] using inv.belowCur c hc q hst
          belowCur := by
            intro c hc p hp
            injection hp with hp
            subst hp
            rcases List.mem_append.1 hc with h | h
            · exact inv.belowSegs c h seg (List.mem_cons_self ..)
            · rw [List.mem_singleton.1 h]
              simpa [rawStart] using hqseg
          belowSegs := by
            intro c hc s hs
            rcases List.mem_append.1 hc with h | h
            · exact inv.belowSegs c h s (List.mem_cons_of_mem _ hs)
            · rw [List.mem_singleton.1 h]
              simpa [rawStart] using inv.curBelowSegs q hst s (List.mem_cons_of_mem _ hs)
          curBelowSegs := by
            intro p hp s hs
            injection hp with hp
            subst hp
            exact hseg s hs
          startNoneNil := by simp }
      by_cases hlen : (splitTerm cur.text).length > 1
      · by_cases hrem : pstrip ((splitTerm cur.text).getLast?.getD []) = []
        · have hres : contentStep maxW (chunks, cur) seg =
              (chunks ++ [{ text := pstrip (joinDotSp ((splitTerm cur.text).dropLast)),
                            start := some q, stop := cur.stop }],
               { text := pstrip seg.text, start := some seg.start,
                 stop := some seg.stop,
                 wc := (words (pstrip seg.text)).length }) := by
            simp [contentStep, hst, hcl.1, hcl.2, hlen, hrem]
          rw [hres]
          exact hrest _ _ _ hasNonWs_closed_split (pstrip_nil_or_hasNonWs seg.text)
        · have hres : contentStep maxW (chunks, cur) seg =
              (chunks ++ [{ text := pstrip (joinDotSp ((splitTerm cur.text).dropLast)),
                            start := some q, stop := cur.stop }],
               { text := pstrip ((splitTerm cur.text).getLast?.getD []) ++ ' ' :: pstrip seg.text,
                 start := some seg.start, stop := some seg.stop,
                 wc := (words (pstrip ((splitTerm cur.text).getLast?.getD []) ++ ' ' :: pstrip seg.text)).length }) := by
            simp [contentStep, hst, hcl.1, hcl.2, hlen, hrem]
          rw [hres]
          exact hrest _ _ _ hasNonWs_closed_split
            (Or.inr (hasNonWs_append_left (hasNonWs_pstrip_of_ne_nil hrem)))
      · have hres : contentStep maxW (chunks, cur) seg =
            (chunks ++ [{ text := cur.text, start := some q, stop := cur.stop }],
             { text := pstrip seg.text, start := some seg.start,
               stop := some seg.stop,
               wc := (words (pstrip seg.text)).length }) := by
          simp [contentStep, hst, hcl.1, hcl.2, hlen]
        rw [hres]
        exact hrest _ _ _ ((inv.curOk).resolve_left hcl.2)
          (pstrip_nil_or_hasNonWs seg.text)
    · have hres : contentStep maxW (chunks, cur) seg =
          (chunks, { text := if cur.text = [] then pstrip seg.text
                             else cur.text ++ ' ' :: pstrip seg.text,
                     start := some q, stop := some seg.stop,
                     wc := cur.wc + (words (pstrip seg.text)).length }) := by
        simp only [contentStep, hst]
        rw [if_neg hcl]
      rw [hres]
      exact {
        textsOk := inv.textsOk
        curOk := by
          by_cases h : cur.text = []
          · simpa [h] using pstrip_nil_or_hasNonWs seg.text
          · simp only [if_neg h]
            exact Or.inr (hasNonWs_append_left ((inv.curOk).resolve_left h))
        curStartSome := by simp
        sorted := inv.sorted
        belowCur := by
          intro c hc p hp
          injection hp with hp
          subst hp
          exact inv.belowCur c hc q hst
        belowSegs := fun c hc s hs => inv.belowSegs c hc s (List.mem_cons_of_mem _ hs)
        curBelowSegs := by
          intro p hp s hs
          injection hp with hp
          subst hp
          exact inv.curBelowSegs q hst s (List.mem_cons_of_mem _ hs)
        startNoneNil := by simp }

theorem chunkByContent_props (maxW : ℕ) (segs : List Segment)
    (hs : segs.Pairwise (fun a b => a.start ≤ b.start)) :
    (∀ c ∈ chunkByContent maxW segs, hasNonWs c.text = true) ∧
    ((chunkByContent maxW segs).map rawStart).Pairwise (fun a b => a ≤ b) := by
  have h0 : segs.Pairwise (fun a b => a.start ≤ b.start) ∧
      ContentInv segs ([], { text := [], start := none, stop := none, wc := 0 }) := by
    refine ⟨hs, ?_⟩
    exact {
      textsOk := by simp
      curOk := Or.inl rfl
      curStartSome := by simp
      sorted := by simp
      belowCur := by simp
      belowSegs := by simp
      curBelowSegs := by simp
      startNoneNil := by simp }
  have hend := foldl_inv
    (P := fun l st => l.Pairwise (fun a b => a.start ≤ b.start) ∧ ContentInv l st)
    (f := contentStep maxW)
    (fun a rest st h =>
      ⟨(List.pairwise_cons.1 h.1).2, contentStep_inv (List.pairwise_cons.1 h.1).1 h.2⟩)
    segs _ h0
  obtain ⟨-, inv⟩ := hend
  unfold chunkByContent
  set res := segs.foldl (contentStep maxW)
    ([], { text := [], start := none, stop := none, wc := 0 })
  by_cases h : res.2.text ≠ []
  · rw [if_pos h]
    have hstart : res.2.start ≠ none := inv.curStartSome h
    rcases hq : res.2.start with _ | q
    · exact absurd hq hstart
    constructor
    · intro c hc
      rcases List.mem_append.1 hc with hm | hm
      · exact inv.textsOk c hm
      · rw [List.mem_singleton.1 hm]
        exact (inv.curOk).resolve_left h
    · rw [List.map_append, List.pairwise_append]
      refine ⟨inv.sorted, by simp, ?_⟩
      intro a ha b hb
      simp only [List.map_cons, List.map_nil, List.mem_singleton] at hb
      obtain ⟨c, hc, rfl⟩ := List.mem_map.1 ha
      rw [hb]
      simpa [rawStart, hq] using inv.belowCur c hc q hq
  · rw [if_neg h]
    exact ⟨inv.textsOk, inv.sorted⟩

/-- Content chunking of a single segment never splits: the guard requires a
non-empty accumulated text, which a first segment never sees. -/
theorem chunkByContent_singleton (maxW : ℕ) (s : Segment)
    (h : pstrip s.text ≠ []) :
    chunkByContent maxW [s] =
      [{ text := pstrip s.text, start := some s.start, stop := some s.stop }] := by
  simp [chunkByContent, contentStep, h]

theorem hybridSplit_props {c : RawChunk} (h : hasNonWs c.text = true) :
    (∀ d ∈ hybridSplit c, hasNonWs d.text = true) ∧
    (hybridSplit c).map rawStart = [rawStart c] := by
  unfold hybridSplit
  by_cases hbig : (words c.text).length > 200
  · rw [if_pos hbig]
    have hne : pstrip c.text ≠ [] := pstrip_ne_nil_of_hasNonWs h
    rw [chunkByContent_singleton 150 _ hne]
    constructor
    · intro d hd
      rw [List.mem_singleton.1 hd]
      exact hasNonWs_pstrip_of_ne_nil hne
    · simp [rawStart]
  · rw [if_neg hbig]
    constructor
    · intro d hd
      rw [List.mem_singleton.1 hd]
      exact h
    · simp

theorem flatMap_hybridSplit_props :
    ∀ (l : List RawChunk), (∀ c ∈ l, hasNonWs c.text = true) →
      (∀ d ∈ l.flatMap hybridSplit, hasNonWs d.text = true) ∧
      (l.flatMap hybridSplit).map rawStart = l.map rawStart
  | [], _ => by simp
  | c :: l, hl => by
    have h1 := hybridSplit_props (hl c (List.mem_cons_self ..))
    have h2 := flatMap_hybridSplit_props l (fun d hd => hl d (List.mem_cons_of_mem _ hd))
    rw [List.flatMap_cons]
    constructor
    · intro d hd
      rcases List.mem_append.1 hd with h | h
      · exact h1.1 d h
      · exact h2.1 d h
    · rw [List.map_append, h1.2, h2.2, List.map_cons]
      rfl

/-- For every strategy, the raw chunks emitted on sorted segments all carry
visibly non-blank text and appear in non-decreasing start order. -/
theorem rawChunks_props (strategy : Strategy) (segments : List Segment)
    (hs : segments.Pairwise (fun a b => a.start ≤ b.start)) :
    (∀ c ∈ rawChunks strategy segments, hasNonWs c.text = true) ∧
    ((rawChunks strategy segments).map rawStart).Pairwise (fun a b => a ≤ b) := by
  cases strategy with
  | time => exact chunkByTime_props 90 segments hs
  | content => exact chunkByContent_props 150 segments hs
  | hybrid =>
    have ht := chunkByTime_props 120 segments hs
    have hf := flatMap_hybridSplit_props (chunkByTime 120 segments) ht.1
    unfold rawChunks
    refine ⟨hf.1, ?_⟩
    rw [hf.2]
    exact ht.2

theorem filterMap_eq_map_of_some {α β : Type} {f : α → Option β} {g : α → β} :
    ∀ {l : List α}, (∀ a ∈ l, f a = some (g a)) → l.filterMap f = l.map g
  | [], _ => rfl
  | a :: l, h => by
    rw [List.filterMap_cons, h a (List.mem_cons_self ..),
      filterMap_eq_map_of_some (fun x hx => h x (List.mem_cons_of_mem _ hx)),
      List.map_cons]

theorem createTranscriptChunks_eq_map (videoId : Str) (freshId : ℕ → Str)
    (segments : List Segment) (strategy : Strategy)
    (hprops : ∀ c ∈ rawChunks strategy segments, hasNonWs c.text = true)
    (hempty : segments ≠ []) :
    createTranscriptChunks videoId freshId segments strategy
      = (rawChunks strategy segments).enum.map (fun p =>
          { id := freshId p.1, video_id := videoId, text := normalize p.2.text,
            start_time := p.2.start.getD 0, end_time := p.2.stop.getD 0,
            chunk_index := p.1,
            word_count := (words (normalize p.2.text)).length }) := by
  unfold createTranscriptChunks
  rw [if_neg hempty]
  refine filterMap_eq_map_of_some ?_
  intro p hp
  have hmem : p.2 ∈ rawChunks strategy segments := by
    rw [← List.enum_map_snd (rawChunks strategy segments)]
    exact List.mem_map_of_mem Prod.snd hp
  have ht : normalize p.2.text ≠ [] :=
    normalize_ne_nil_of_hasNonWs (hprops p.2 hmem)
  show (if normalize p.2.text = [] then none
        else some
          ({ id := freshId p.1, video_id := videoId, text := normalize p.2.text,
             start_time := p.2.start.getD 0, end_time := p.2.stop.getD 0,
             chunk_index := p.1,
             word_count := (words (normalize p.2.text)).length } : TranscriptChunk))
    = some
      ({ id := freshId p.1, video_id := videoId, text := normalize p.2.text,
         start_time := p.2.start.getD 0, end_time := p.2.stop.getD 0,
         chunk_index := p.1,
         word_count := (words (normalize p.2.text)).length } : TranscriptChunk)
  rw [if_neg ht]

/-- The content-chunking loop, run on terminator-free segments, keeps the
running word count consistent with the running text and every emitted or
running text inside `WordBound`. -/
theorem contentFold_wordBound (maxW : ℕ) (S : Segment → Prop) :
    ∀ (segs : List Segment) (chunks : List RawChunk) (cur : CCur),
      (∀ s ∈ segs, S s ∧ hasTerm s.text = false) →
      cur.wc = (words cur.text).length →
      hasTerm cur.text = false →
      (cur.text ≠ [] → WordBound maxW S cur.text) →
      (∀ c ∈ chunks, WordBound maxW S c.text) →
      (∀ c ∈ (segs.foldl (contentStep maxW) (chunks, cur)).1,
          WordBound maxW S c.text) ∧
      ((segs.foldl (contentStep maxW) (chunks, cur)).2.text ≠ [] →
          WordBound maxW S (segs.foldl (contentStep maxW) (chunks, cur)).2.text)
  | [], chunks, cur, _, _, _, hcb, hch => ⟨hch, hcb⟩
  | seg :: rest, chunks, cur, hsegs, hwc, hnt, hcb, hch => by
    have hsg := hsegs seg (List.mem_cons_self ..)
    have hsegs' : ∀ s ∈ rest, S s ∧ hasTerm s.text = false :=
      fun s hs => hsegs s (List.mem_cons_of_mem _ hs)
    have hsTextNT : hasTerm (pstrip seg.text) = false := hasTerm_pstrip_eq_false hsg.2
    have hSeedWB : pstrip seg.text ≠ [] → WordBound maxW S (pstrip seg.text) := by
      intro _
      by_cases hle : (words (pstrip seg.text)).length ≤ maxW
      · exact Or.inl hle
      · exact Or.inr ⟨seg, hsg.1, rfl, Nat.not_le.1 hle⟩
    rw [List.foldl_cons]
    by_cases hcl : cur.wc + (words (pstrip seg.text)).length > maxW ∧ cur.text ≠ []
    · -- overflow close; the accumulated text has no terminator, so the
      -- sentence split is a no-op and there is no leftover fragment
      have hsplit : splitTerm cur.text = [cur.text] := splitTerm_of_not_hasTerm hnt
      have hres : contentStep maxW (chunks, cur) seg =
          (chunks ++ [{ text := cur.text,
                        start := some (match cur.start with
                                       | none => seg.start | some a => a),
                        stop := cur.stop }],
           { text := pstrip seg.text, start := some seg.start,
             stop := some seg.stop,
             wc := (words (pstrip seg.text)).length }) := by
        simp [contentStep, hcl.1, hcl.2, hsplit]
      rw [hres]
      refine contentFold_wordBound maxW S rest _ _ hsegs' rfl hsTextNT hSeedWB ?_
      intro c hc
      rcases List.mem_append.1 hc with h | h
      · exact hch c h
      · rw [List.mem_singleton.1 h]
        exact hcb hcl.2
    · have hres : contentStep maxW (chunks, cur) seg =
          (chunks, { text := if cur.text = [] then pstrip seg.text
                             else cur.text ++ ' ' :: pstrip seg.text,
                     start := some (match cur.start with
                                    | none => seg.start | some a => a),
                     stop := some seg.stop,
                     wc := cur.wc + (words (pstrip seg.text)).length }) := by
        simp only [contentStep]
        rw [if_neg hcl]
      rw [hres]
      by_cases he : cur.text = []
      · have hwc0 : cur.wc = 0 := by rw [hwc, he]; rfl
        refine contentFold_wordBound maxW S rest _ _ hsegs' ?_ ?_ ?_ hch
        · simp [he, hwc0]
        · simp [he, hsTextNT]
        · simp only [if_pos he]
          exact hSeedWB
      · have hle : cur.wc + (words (pstrip seg.text)).length ≤ maxW := by
          by_contra hgt
          exact hcl ⟨Nat.not_le.1 hgt, he⟩
        have hwc' : cur.wc + (words (pstrip seg.text)).length
            = (words (cur.text ++ ' ' :: pstrip seg.text)).length := by
          rw [words_append_space, List.length_append, hwc]
        refine contentFold_wordBound maxW S rest _ _ hsegs' ?_ ?_ ?_ hch
        · simp only [if_neg he]
          exact hwc'
        · simp only [if_neg he]
          show hasTerm (cur.text ++ ([' '] ++ pstrip seg.text)) = false
          exact hasTerm_append_eq_false hnt
            (hasTerm_append_eq_false (by decide) hsTextNT)
        · simp only [if_neg he]
          intro _
          exact Or.inl (by rw [← hwc']; exact hle)

/-- C3 (amended): when no segment text contains a sentence terminator
(`.`, `!`, `?`), no chunk emitted by content-bounded chunking has a word
count exceeding `max_words`, except a chunk whose text is a single
(stripped) segment that alone exceeds `max_words`. (With terminators
present the claim fails: the leftover sentence fragment of an overflow
close seeds the next chunk together with the triggering segment, and that
seed can exceed `max_words` without any single segment doing so, see the
counterexample.) -/
theorem c3_content_word_bound (maxW : ℕ) (segs : List Segment)
    (_hpos : 0 < maxW)
    (hterm : ∀ s ∈ segs, hasTerm s.text = false) :
    ∀ c ∈ chunkByContent maxW segs,
      (words c.text).length ≤ maxW ∨
      ∃ s ∈ segs, c.text = pstrip s.text ∧ maxW < (words (pstrip s.text)).length := by
  have h := contentFold_wordBound maxW (fun s => s ∈ segs) segs []
    { text := [], start := none, stop := none, wc := 0 }
    (fun s hs => ⟨hs, hterm s hs⟩) rfl rfl (by simp) (by simp)
  unfold chunkByContent
  set res := segs.foldl (contentStep maxW)
    ([], { text := [], start := none, stop := none, wc := 0 })
  by_cases hfin : res.2.text ≠ []
  · rw [if_pos hfin]
    intro c hc
    rcases List.mem_append.1 hc with hm | hm
    · exact h.1 c hm
    · rw [List.mem_singleton.1 hm]
      exact h.2 hfin
  · rw [if_neg hfin]
    exact h.1

/-- Witness for C3 on a concrete terminator-free input that overflows:
the closed first chunk of `chunkByContent 2 [(0,1,"a b"), (1,2,"c d")]`
satisfies the bound. -/
theorem c3_content_word_bound_witness :
    (words ({ text := strL "a b", start := some 0, stop := some 1 : RawChunk}.text)).length ≤ 2 ∨
    ∃ s ∈ ([⟨0, 1, strL "a b"⟩, ⟨1, 2, strL "c d"⟩] : List Segment),
      ({ text := strL "a b", start := some 0, stop := some 1 : RawChunk}.text)
          = pstrip s.text ∧
        2 < (words (pstrip s.text)).length :=
  c3_content_word_bound 2 [⟨0, 1, strL "a b"⟩, ⟨1, 2, strL "c d"⟩]
    (by decide) (by decide)
    { text := strL "a b", start := some 0, stop := some 1 } (by decide)

/-- C3 as frozen is false: with `max_words = 4` and segments
`"x. a b c"` (4 words) and `"d e"` (2 words), the overflow at the second
segment splits at the sentence boundary and seeds the next chunk with
`"a b c d e"` — 5 words, more than `max_words`, while no single segment
exceeds 4 words. -/
theorem c3_word_bound_counterexample :
    (∃ c ∈ chunkByContent 4 [⟨0, 1, strL "x. a b c"⟩, ⟨1, 2, strL "d e"⟩],
        4 < (words c.text).length) ∧
    (∀ s ∈ ([⟨0, 1, strL "x. a b c"⟩, ⟨1, 2, strL "d e"⟩] : List Segment),
        (words (pstrip s.text)).length ≤ 4) := by
  decide

/-- C2 (amended): for segments whose start times are non-decreasing, the
chunks produced by `create_transcript_chunks` — under every strategy — have
contiguous 0-based `chunk_index` values in output order, non-decreasing
`start_time`, non-empty whitespace-normalized text, and `word_count` equal
to the length of `text.split()`. (No raw chunk is ever dropped: every raw
chunk the strategies emit contains a non-whitespace character, so the empty
case of the normalize-and-drop step is unreachable.) -/
theorem c2_chunk_invariants (videoId : Str) (freshId : ℕ → Str)
    (segments : List Segment) (strategy : Strategy)
    (hs : segments.Pairwise (fun a b => a.start ≤ b.start)) :
    ((createTranscriptChunks videoId freshId segments strategy).map
        (fun c => c.chunk_index)
      = List.range (createTranscriptChunks videoId freshId segments strategy).length) ∧
    ((createTranscriptChunks videoId freshId segments strategy).map
        (fun c => c.start_time)).Pairwise (fun a b => a ≤ b) ∧
    (∀ c ∈ createTranscriptChunks videoId freshId segments strategy,
      c.text ≠ [] ∧ c.word_count = (words c.text).length) := by
  by_cases hempty : segments = []
  · simp [createTranscriptChunks, hempty]
  · have hprops := rawChunks_props strategy segments hs
    have hEq := createTranscriptChunks_eq_map videoId freshId segments strategy hprops.1 hempty
    refine ⟨?_, ?_, ?_⟩
    · rw [hEq, List.map_map, List.length_map]
      show (rawChunks strategy segments).enum.map Prod.fst
        = List.range (rawChunks strategy segments).enum.length
      rw [List.enum_map_fst, List.enum_length]
    · rw [hEq, List.map_map]
      show ((rawChunks strategy segments).enum.map (rawStart ∘ Prod.snd)).Pairwise
        (fun a b => a ≤ b)
      rw [← List.map_map, List.enum_map_snd]
      exact hprops.2
    · intro c hc
      rw [hEq] at hc
      obtain ⟨p, hp, rfl⟩ := List.mem_map.1 hc
      have hmem : p.2 ∈ rawChunks strategy segments := by
        rw [← List.enum_map_snd (rawChunks strategy segments)]
        exact List.mem_map_of_mem Prod.snd hp
      exact ⟨normalize_ne_nil_of_hasNonWs (hprops.1 p.2 hmem), rfl⟩

/-- Witness for C2 on a concrete sorted input. -/
theorem c2_chunk_invariants_witness :
    ((createTranscriptChunks (strL "v") (fun _ => [])
        [⟨0, 10, strL "hi"⟩, ⟨10, 20, strL "there"⟩] .hybrid).map
        (fun c => c.chunk_index)
      = List.range (createTranscriptChunks (strL "v") (fun _ => [])
          [⟨0, 10, strL "hi"⟩, ⟨10, 20, strL "there"⟩] .hybrid).length) ∧
    ((createTranscriptChunks (strL "v") (fun _ => [])
        [⟨0, 10, strL "hi"⟩, ⟨10, 20, strL "there"⟩] .hybrid).map
        (fun c => c.start_time)).Pairwise (fun a b => a ≤ b) :=
  ⟨(c2_chunk_invariants (strL "v") (fun _ => [])
      [⟨0, 10, strL "hi"⟩, ⟨10, 20, strL "there"⟩] .hybrid
      (by norm_num [List.pairwise_cons])).1,
   (c2_chunk_invariants (strL "v") (fun _ => [])
      [⟨0, 10, strL "hi"⟩, ⟨10, 20, strL "there"⟩] .hybrid
      (by norm_num [List.pairwise_cons])).2.1⟩

/-- C2 as frozen is false: with unsorted segment input (allowed by the
claim's "every sequence of transcript segments"), the `"time"` strategy can
emit chunks whose start times decrease. Segments `(50,150,"a")` then
`(0,141,"b")` produce chunks with start times `50` then `0`. -/
theorem c2_start_time_counterexample :
    ¬ (((createTranscriptChunks (strL "v") (fun _ => [])
        [⟨50, 150, strL "a"⟩, ⟨0, 141, strL "b"⟩] .time).map
        (fun c => c.start_time)).Pairwise (fun a b => a ≤ b)) := by
  have hA : isWsChar 'a' = false := by decide
  have hB : isWsChar 'b' = false := by decide
  have hne : ([⟨50, 150, strL "a"⟩, ⟨0, 141, strL "b"⟩] : List Segment) ≠ [] := by
    decide
  have hev : (createTranscriptChunks (strL "v") (fun _ => [])
      [⟨50, 150, strL "a"⟩, ⟨0, 141, strL "b"⟩] .time).map
      (fun c => c.start_time) = [50, 0] := by
    rw [createTranscriptChunks, if_neg hne]
    norm_num [rawChunks, chunkByTime, timeStep, strL,
      pstrip, normalize, collapseWs, words, wordsAux, hA, hB,
      List.dropWhile, List.enum, List.enumFrom, List.filterMap]
  rw [hev]
  simp

/-- C8: time-bounded chunking with `chunk_duration = 60` on segments
`(0,30,"Intro to sets.")`, `(30,65,"Sets contain elements.")` yields
exactly the chunk `(0,30,"Intro to sets.")` followed by
`(30,65,"Sets contain elements.")`: the second segment triggers the close
(`65 - 0 > 60`) before being added. -/
theorem c8_time_chunk_scenario :
    chunkByTime 60 [⟨0, 30, strL "Intro to sets."⟩,
                    ⟨30, 65, strL "Sets contain elements."⟩]
      = [{ text := strL "Intro to sets.", start := some 0, stop := some 30 },
         { text := strL "Sets contain elements.", start := some 30,
           stop := some 65 }] := by
  have h1 : ¬ ((30 : ℚ) - 0 > 60) := by norm_num
  have h2 : (65 : ℚ) - 0 > 60 := by norm_num
  have hpa : pstrip (strL "Intro to sets.") = strL "Intro to sets." := by decide
  have hpb : pstrip (strL "Sets contain elements.")
      = strL "Sets contain elements." := by decide
  have hna : strL "Intro to sets." ≠ [] := by decide
  have hnb : strL "Sets contain elements." ≠ [] := by decide
  norm_num [chunkByTime, timeStep, h1, h2, hpa, hpb, hna, hnb]

/-- C7: every retrieval result carries relevance score `max(0, 1 - d)` for
its match's distance `d`, and for non-negative distances the score lies in
`[0, 1]`. -/
theorem c7_relevance_scores (ms : List QueryMatch)
    (h0 : ∀ m ∈ ms, 0 ≤ m.distance) :
    List.Forall₂ (fun (c : RelevantChunk) (m : QueryMatch) =>
        c.relevance_score = max 0 (1 - m.distance) ∧
        0 ≤ c.relevance_score ∧ c.relevance_score ≤ 1)
      (retrieveRelevantChunks (some ms)) ms := by
  induction ms with
  | nil => exact List.Forall₂.nil
  | cons m ms ih =>
    refine List.Forall₂.cons ⟨rfl, le_max_left 0 _, ?_⟩
      (ih fun x hx => h0 x (List.mem_cons_of_mem _ hx))
    have hd : 0 ≤ m.distance := h0 m (List.mem_cons_self ..)
    show relevanceScore m.distance ≤ 1
    unfold relevanceScore
    refine max_le (by norm_num) ?_
    linarith

/-- Witness for C7 at distance 1/2. -/
theorem c7_relevance_scores_witness :
    List.Forall₂ (fun (c : RelevantChunk) (m : QueryMatch) =>
        c.relevance_score = max 0 (1 - m.distance) ∧
        0 ≤ c.relevance_score ∧ c.relevance_score ≤ 1)
      (retrieveRelevantChunks
        (some [⟨strL "c1", strL "doc", 0, 1, strL "0:00", 1 / 2⟩]))
      [⟨strL "c1", strL "doc", 0, 1, strL "0:00", 1 / 2⟩] :=
  c7_relevance_scores [⟨strL "c1", strL "doc", 0, 1, strL "0:00", 1 / 2⟩]
    (by intro m hm; rw [List.mem_singleton.1 hm]; norm_num)

/-- C6: a missing vector collection or an empty match list yields an empty
retrieval (a normal value, not an error), and the Answer Composer then
returns the fixed "couldn't find relevant information" answer with
confidence 0 and an empty chunk list. -/
theorem c6_empty_retrieval (videoId : Str) (gen : Option Str) :
    retrieveRelevantChunks none = [] ∧
    retrieveRelevantChunks (some []) = [] ∧
    (∀ collection, retrieveRelevantChunks collection = [] →
      generateResponse videoId collection gen =
        { answer := noInfoAnswer, relevant_chunks := [], video_id := videoId,
          confidence_score := 0 }) := by
  refine ⟨rfl, rfl, ?_⟩
  intro col hcol
  simp [generateResponse, hcol]

/-- Witness for C6: the no-collection case at a concrete video id. -/
theorem c6_empty_retrieval_witness :
    generateResponse (strL "v") none none =
      { answer := noInfoAnswer, relevant_chunks := [],
        video_id := strL "v", confidence_score := 0 } :=
  (c6_empty_retrieval (strL "v") none).2.2 none rfl

/-- C4 (amended): the Answer Composer's confidence is always at most 0.95;
it is 0 whenever no chunks were retrieved; and when chunks were retrieved
and generation succeeds it equals `min(0.95, mean relevance)`. (The "0.0
exactly when no chunks were retrieved" direction of the claim fails: the
mean relevance of retrieved chunks can itself be 0, and the degraded
generation-failure response also reports 0 with a non-empty chunk list.) -/
theorem c4_confidence (videoId : Str) (collection : Option (List QueryMatch))
    (gen : Option Str) :
    (generateResponse videoId collection gen).confidence_score ≤ 95 / 100 ∧
    (retrieveRelevantChunks collection = [] →
      (generateResponse videoId collection gen).confidence_score = 0) ∧
    (∀ t, gen = some t → retrieveRelevantChunks collection ≠ [] →
      (generateResponse videoId collection gen).confidence_score
        = min ((95 : ℚ) / 100)
            (((retrieveRelevantChunks collection).map
                (fun c => c.relevance_score)).sum
              / (retrieveRelevantChunks collection).length)) := by
  by_cases hrc : retrieveRelevantChunks collection = []
  · refine ⟨?_, fun _ => ?_, fun t _ hne => absurd hrc hne⟩
    · simp only [generateResponse, if_pos hrc]
      norm_num
    · simp [generateResponse, hrc]
  · rcases gen with _ | t
    · refine ⟨?_, fun h => absurd h hrc, fun t ht => by cases ht⟩
      simp only [generateResponse, if_neg hrc]
      norm_num
    · refine ⟨?_, fun h => absurd h hrc, ?_⟩
      · simp only [generateResponse, if_neg hrc]
        exact min_le_left _ _
      · intro t' ht _
        injection ht with ht
        subst ht
        simp [generateResponse, hrc]

/-- Witness for C4: one retrieved chunk at distance 1/2 and successful
generation give confidence `min(0.95, 1/2)`. -/
theorem c4_confidence_witness :
    (generateResponse (strL "v")
        (some [⟨strL "c1", strL "doc", 0, 1, strL "0:00", 1 / 2⟩])
        (some (strL "fine"))).confidence_score
      = min ((95 : ℚ) / 100)
          (((retrieveRelevantChunks
              (some [⟨strL "c1", strL "doc", 0, 1, strL "0:00", 1 / 2⟩])).map
              (fun c => c.relevance_score)).sum
            / (retrieveRelevantChunks
                (some [⟨strL "c1", strL "doc", 0, 1, strL "0:00", 1 / 2⟩])).length) :=
  (c4_confidence (strL "v")
      (some [⟨strL "c1", strL "doc", 0, 1, strL "0:00", 1 / 2⟩])
      (some (strL "fine"))).2.2 (strL "fine") rfl (by decide)

/-- C4 as frozen is false: with one retrieved chunk at distance 1 (relevance
0) and successful generation, the confidence is 0 while the retrieved chunk
list is non-empty, refuting "confidence is 0.0 if and only if the retrieved
chunk list is empty". -/
theorem c4_confidence_counterexample :
    (generateResponse (strL "v")
        (some [⟨strL "c1", strL "doc", 0, 1, strL "0:00", 1⟩])
        (some (strL "fine"))).confidence_score = 0 ∧
    (generateResponse (strL "v")
        (some [⟨strL "c1", strL "doc", 0, 1, strL "0:00", 1⟩])
        (some (strL "fine"))).relevant_chunks ≠ [] := by
  constructor
  · have hne : retrieveRelevantChunks
        (some [⟨strL "c1", strL "doc", 0, 1, strL "0:00", 1⟩]) ≠ [] := by decide
    simp only [generateResponse, if_neg hne]
    norm_num [retrieveRelevantChunks, relevanceScore]
  · have hne : retrieveRelevantChunks
        (some [⟨strL "c1", strL "doc", 0, 1, strL "0:00", 1⟩]) ≠ [] := by decide
    simp [generateResponse, hne]

/-- C10: `update_processing_status` overwrites exactly the
`processing_status` and `processing_error` columns of the video's row with
the given values (so advancing without an error argument, i.e. with
`error = none`, erases a previously recorded failure message) and leaves
every other column unchanged. -/
theorem c10_update_status_frame (videoId : Str) (status : ProcessingStatus)
    (error : Option Str) (r : VideoRecord) (h : r.id = videoId) :
    (updateProcessingStatusRow videoId status error r).processing_status = status ∧
    (updateProcessingStatusRow videoId status error r).processing_error = error ∧
    (updateProcessingStatusRow videoId status error r).id = r.id ∧
    (updateProcessingStatusRow videoId status error r).filename = r.filename ∧
    (updateProcessingStatusRow videoId status error r).title = r.title ∧
    (updateProcessingStatusRow videoId status error r).duration = r.duration ∧
    (updateProcessingStatusRow videoId status error r).file_size = r.file_size ∧
    (updateProcessingStatusRow videoId status error r).upload_timestamp
      = r.upload_timestamp ∧
    (updateProcessingStatusRow videoId status error r).audio_path = r.audio_path ∧
    (updateProcessingStatusRow videoId status error r).transcript_path
      = r.transcript_path ∧
    (updateProcessingStatusRow videoId status error r).total_chunks
      = r.total_chunks := by
  simp [updateProcessingStatusRow, h]

/-- Witness for C10: a concrete record advancing to `transcribing` with no
error argument loses its previous failure message. -/
theorem c10_update_status_frame_witness :
    (updateProcessingStatusRow (strL "v") .transcribing none
      { id := strL "v", filename := strL "f.mp4", title := none, duration := 10,
        file_size := 5, upload_timestamp := strL "t0",
        processing_status := .failed, audio_path := none,
        transcript_path := none, total_chunks := none,
        processing_error := some (strL "Transcription failed") }).processing_error
      = none :=
  (c10_update_status_frame (strL "v") .transcribing none
    { id := strL "v", filename := strL "f.mp4", title := none, duration := 10,
      file_size := 5, upload_timestamp := strL "t0",
      processing_status := .failed, audio_path := none,
      transcript_path := none, total_chunks := none,
      processing_error := some (strL "Transcription failed") } rfl).2.1

theorem saveChunks_appends :
    ∀ (chunks table : List TranscriptChunk),
      (∀ c ∈ chunks, ∀ r ∈ table, r.id ≠ c.id) →
      chunks.Pairwise (fun a b => a.id ≠ b.id) →
      saveTranscriptChunks table chunks = table ++ chunks
  | [], table, _, _ => by simp [saveTranscriptChunks]
  | c :: cs, table, hfresh, hids => by
    have hnot : table.any (fun r => r.id = c.id) = false := by
      rw [List.any_eq_false]
      intro r hr
      simpa using hfresh c (List.mem_cons_self ..) r hr
    have hstep : insertOrReplaceChunk table c = table ++ [c] := by
      rw [insertOrReplaceChunk, if_neg (by rw [hnot]; exact Bool.false_ne_true)]
    have hrec := saveChunks_appends cs (table ++ [c])
      (by
        intro x hx r hr
        rcases List.mem_append.1 hr with h | h
        · exact hfresh x (List.mem_cons_of_mem _ hx) r h
        · rw [List.mem_singleton.1 h]
          exact (List.pairwise_cons.1 hids).1 x hx)
      (List.pairwise_cons.1 hids).2
    show List.foldl insertOrReplaceChunk (insertOrReplaceChunk table c) cs
      = table ++ c :: cs
    rw [hstep]
    rw [show table ++ c :: cs = (table ++ [c]) ++ cs by simp]
    exact hrec

theorem insertByIdx_of_lt {c : TranscriptChunk} :
    ∀ {l : List TranscriptChunk},
      (∀ x ∈ l, c.chunk_index < x.chunk_index) → insertByIdx c l = c :: l
  | [], _ => rfl
  | x :: xs, h => by
    rw [insertByIdx,
      if_neg (Nat.not_le.2 (h x (List.mem_cons_self ..)))]

theorem sortByIdx_of_sorted :
    ∀ {l : List TranscriptChunk},
      (l.map (fun c => c.chunk_index)).Pairwise (fun a b => a < b) →
      sortByIdx l = l
  | [], _ => rfl
  | x :: xs, h => by
    rw [List.map_cons, List.pairwise_cons] at h
    rw [sortByIdx, sortByIdx_of_sorted h.2]
    refine insertByIdx_of_lt ?_
    intro y hy
    exact h.1 y.chunk_index (List.mem_map_of_mem _ hy)

/-- C9 (amended): for a chunk list for one video with pairwise-distinct ids
and strictly increasing `chunk_index`, written into a store holding no
prior rows, `get_transcript_chunks` returns a list order- and
field-identical to the one written. (Unsorted input round-trips in a
different order because `get` sorts by `chunk_index`, see the
counterexample.) -/
theorem c9_round_trip (videoId : Str) (chunks : List TranscriptChunk)
    (hvid : ∀ c ∈ chunks, c.video_id = videoId)
    (hids : chunks.Pairwise (fun a b => a.id ≠ b.id))
    (hidx : (chunks.map (fun c => c.chunk_index)).Pairwise (fun a b => a < b)) :
    getTranscriptChunks (saveTranscriptChunks [] chunks) videoId = chunks := by
  rw [saveChunks_appends chunks [] (by simp) hids, List.nil_append,
    getTranscriptChunks, List.filter_eq_self.2 ?_]
  · exact sortByIdx_of_sorted hidx
  · intro c hc
    simpa using hvid c hc

/-- Witness for C9 on two concrete chunks written in index order. -/
theorem c9_round_trip_witness :
    getTranscriptChunks
      (saveTranscriptChunks []
        [{ id := strL "i1", video_id := strL "v", text := strL "t1",
           start_time := 0, end_time := 1, chunk_index := 0, word_count := 1 },
         { id := strL "i2", video_id := strL "v", text := strL "t2",
           start_time := 1, end_time := 2, chunk_index := 1, word_count := 1 }])
      (strL "v")
      = [{ id := strL "i1", video_id := strL "v", text := strL "t1",
           start_time := 0, end_time := 1, chunk_index := 0, word_count := 1 },
         { id := strL "i2", video_id := strL "v", text := strL "t2",
           start_time := 1, end_time := 2, chunk_index := 1, word_count := 1 }] :=
  c9_round_trip (strL "v") _ (by decide) (by decide) (by decide)

/-- C9 as frozen is false: a list written with descending `chunk_index`
(indices 1 then 0) is re-read in ascending index order, so the round trip
is not order-identical for every list. -/
theorem c9_round_trip_counterexample :
    getTranscriptChunks
      (saveTranscriptChunks []
        [{ id := strL "i1", video_id := strL "v", text := strL "t1",
           start_time := 0, end_time := 1, chunk_index := 1, word_count := 1 },
         { id := strL "i2", video_id := strL "v", text := strL "t2",
           start_time := 1, end_time := 2, chunk_index := 0, word_count := 1 }])
      (strL "v")
      ≠ [{ id := strL "i1", video_id := strL "v", text := strL "t1",
           start_time := 0, end_time := 1, chunk_index := 1, word_count := 1 },
         { id := strL "i2", video_id := strL "v", text := strL "t2",
           start_time := 1, end_time := 2, chunk_index := 0, word_count := 1 }] := by
  decide

/-- C5 (amended): each stage failure sets `FAILED` with exactly the code's
cause string — capitalised `"Audio extraction failed"`, `"Transcription
failed"`, `"Chunking failed"`, `"Failed to save chunks"`, `"Embedding
creation failed"`, not the claim's lower-case variants — and the run aborts
with the stated write trace, executing no later stage; `COMPLETED` is never
written by `process_video`, nor by a failing `process_video_embeddings`. -/
theorem c5_failure_causes (env : PipelineEnv) (meta : VideoMetadata)
    (eenv : EmbedEnv) :
    (env.audioOk = false →
      processVideo env meta =
        (false, [.setStatus .processing none,
                 .setStatus .failed (some (strL "Audio extraction failed"))])) ∧
    (env.audioOk = true → env.transcription = none →
      processVideo env meta =
        (false, [.setStatus .processing none,
                 .putVideo meta.processing_status meta.processing_error,
                 .setStatus .transcribing none,
                 .setStatus .failed (some (strL "Transcription failed"))])) ∧
    (∀ segs, env.audioOk = true → env.transcription = some segs →
      createTranscriptChunks meta.id env.freshId segs .hybrid = [] →
      processVideo env meta =
        (false, [.setStatus .processing none,
                 .putVideo meta.processing_status meta.processing_error,
                 .setStatus .transcribing none,
                 .setStatus .chunking none,
                 .setStatus .failed (some (strL "Chunking failed"))])) ∧
    (∀ segs, env.audioOk = true → env.transcription = some segs →
      createTranscriptChunks meta.id env.freshId segs .hybrid ≠ [] →
      env.saveChunksOk = false →
      processVideo env meta =
        (false, [.setStatus .processing none,
                 .putVideo meta.processing_status meta.processing_error,
                 .setStatus .transcribing none,
                 .setStatus .chunking none,
                 .setStatus .failed (some (strL "Failed to save chunks"))])) ∧
    (eenv.dbChunks ≠ [] → eenv.embedOk = false →
      processVideoEmbeddings eenv =
        (false, [.setStatus .embedding none,
                 .setStatus .failed (some (strL "Embedding creation failed"))])) ∧
    (meta.processing_status ≠ .completed →
      ProcessingStatus.completed ∉ ((processVideo env meta).2.map DbWrite.status)) ∧
    ((processVideoEmbeddings eenv).1 = false →
      ProcessingStatus.completed ∉
        ((processVideoEmbeddings eenv).2.map DbWrite.status)) := by
  obtain ⟨a, tr, sv, f⟩ := env
  obtain ⟨dc, eo⟩ := eenv
  refine ⟨?_, ?_, ?_, ?_, ?_, ?_, ?_⟩
  · intro ha
    subst ha
    simp [processVideo]
  · intro ha htr
    subst ha
    subst htr
    simp [processVideo]
  · intro segs ha htr hch
    subst ha
    subst htr
    simp [processVideo, hch]
  · intro segs ha htr hch hsv
    subst ha
    subst htr
    subst hsv
    simp [processVideo, hch]
  · intro hdc heo
    subst heo
    simp [processVideoEmbeddings, hdc]
  · intro hmeta
    cases a with
    | false => simp [processVideo, DbWrite.status]
    | true =>
      cases tr with
      | none => simp [processVideo, DbWrite.status, Ne.symm hmeta]
      | some segs =>
        by_cases hch : createTranscriptChunks meta.id f segs .hybrid = [] <;>
          cases sv <;>
            simp [processVideo, DbWrite.status, hch, Ne.symm hmeta]
  · intro hfail
    by_cases hdc : dc = []
    · simp [processVideoEmbeddings, hdc, DbWrite.status]
    · cases eo with
      | false => simp [processVideoEmbeddings, hdc, DbWrite.status]
      | true => simp [processVideoEmbeddings, hdc] at hfail

/-- Witness for C5: the audio-extraction failure case at a concrete
environment. -/
theorem c5_failure_causes_witness :
    processVideo
      { audioOk := false, transcription := none, saveChunksOk := false,
        freshId := fun _ => [] }
      (mkUploadMeta (strL "v") (strL "f.mp4") none 10 1)
      = (false, [.setStatus .processing none,
                 .setStatus .failed (some (strL "Audio extraction failed"))]) :=
  (c5_failure_causes
    { audioOk := false, transcription := none, saveChunksOk := false,
      freshId := fun _ => [] }
    (mkUploadMeta (strL "v") (strL "f.mp4") none 10 1)
    { dbChunks := [], embedOk := false }).1 rfl

/-- C5 as frozen is false on the exact cause strings: the code stores
`"Audio extraction failed"` (capitalised), not the claim's
`"audio extraction failed"`. -/
theorem c5_failure_cause_counterexample :
    (processVideo
        { audioOk := false, transcription := none, saveChunksOk := false,
          freshId := fun _ => [] }
        (mkUploadMeta (strL "v") (strL "f.mp4") none 10 1)).2
      = [.setStatus .processing none,
         .setStatus .failed (some (strL "Audio extraction failed"))] ∧
    strL "Audio extraction failed" ≠ strL "audio extraction failed" := by
  constructor
  · simp [processVideo]
  · decide

/-- C1 (amended): a fresh video's successful single-threaded run writes the
status sequence `UPLOADING` (upload), `PROCESSING`, `UPLOADING` (stale
metadata re-save after audio extraction), `TRANSCRIBING`, `CHUNKING`,
`UPLOADING` (stale metadata re-save with the chunk count), `EMBEDDING`
(pipeline), `EMBEDDING` again (the Embedding Indexer re-writes it), and
`COMPLETED`: the distinct statuses appear in the claimed order, but
`EMBEDDING` is written twice in a row at the pipeline/indexer boundary, and
the two metadata saves re-write the stale `UPLOADING` status. -/
theorem c1_status_write_sequence (env : PipelineEnv) (eenv : EmbedEnv)
    (id filename : Str) (title : Option Str) (duration : ℚ) (fileSize : ℤ)
    (segs : List Segment)
    (haudio : env.audioOk = true)
    (htr : env.transcription = some segs)
    (hchunks : createTranscriptChunks id env.freshId segs .hybrid ≠ [])
    (hsave : env.saveChunksOk = true)
    (hdb : eenv.dbChunks ≠ [])
    (hembed : eenv.embedOk = true) :
    (fullRunWrites env eenv
        (mkUploadMeta id filename title duration fileSize)).map DbWrite.status
      = [.uploading, .processing, .uploading, .transcribing, .chunking,
         .uploading, .embedding, .embedding, .completed] := by
  obtain ⟨a, tr, sv, f⟩ := env
  obtain ⟨dc, eo⟩ := eenv
  simp only at haudio htr hsave hdb hembed hchunks
  subst haudio
  subst htr
  subst hsave
  subst hembed
  simp [fullRunWrites, processVideo, processVideoEmbeddings, mkUploadMeta,
    hchunks, hdb, DbWrite.status]

/-- Witness for C1 at a concrete successful environment. -/
theorem c1_status_write_sequence_witness :
    (fullRunWrites
        { audioOk := true, transcription := some [⟨0, 10, strL "hi"⟩],
          saveChunksOk := true, freshId := fun _ => [] }
        { dbChunks := [{ id := strL "i1", video_id := strL "v",
                         text := strL "hi", start_time := 0, end_time := 10,
                         chunk_index := 0, word_count := 1 }], embedOk := true }
        (mkUploadMeta (strL "v") (strL "f.mp4") none 10 1)).map DbWrite.status
      = [.uploading, .processing, .uploading, .transcribing, .chunking,
         .uploading, .embedding, .embedding, .completed] :=
  c1_status_write_sequence
    { audioOk := true, transcription := some [⟨0, 10, strL "hi"⟩],
      saveChunksOk := true, freshId := fun _ => [] }
    { dbChunks := [{ id := strL "i1", video_id := strL "v", text := strL "hi",
                     start_time := 0, end_time := 10, chunk_index := 0,
                     word_count := 1 }], embedOk := true }
    (strL "v") (strL "f.mp4") none 10 1 [⟨0, 10, strL "hi"⟩]
    rfl rfl
    (by
      have h1 : ¬ ((10 : ℚ) - 0 > 120) := by norm_num
      have hp : pstrip (strL "hi") = strL "hi" := by decide
      have hn : strL "hi" ≠ [] := by decide
      have hw : ¬ ((words (strL "hi")).length > 200) := by decide
      have hnn : normalize (strL "hi") ≠ [] := by decide
      simp [createTranscriptChunks, rawChunks, chunkByTime, timeStep,
        hybridSplit, h1, hp, hn, hw, hnn, List.enum, List.enumFrom])
    rfl (by decide) rfl

/-- C1 as frozen is false: on a concrete successful run the sequence of
statuses written to the record store is not
`[UPLOADING, PROCESSING, TRANSCRIBING, CHUNKING, EMBEDDING, COMPLETED]` —
`EMBEDDING` is written twice in a row (once by the pipeline, once by the
Embedding Indexer) and the pipeline's metadata saves re-write the stale
`UPLOADING` status. -/
theorem c1_status_write_counterexample :
    (fullRunWrites
        { audioOk := true, transcription := some [⟨0, 10, strL "hi"⟩],
          saveChunksOk := true, freshId := fun _ => [] }
        { dbChunks := [{ id := strL "i1", video_id := strL "v",
                         text := strL "hi", start_time := 0, end_time := 10,
                         chunk_index := 0, word_count := 1 }], embedOk := true }
        (mkUploadMeta (strL "v") (strL "f.mp4") none 10 1)).map DbWrite.status
      ≠ [.uploading, .processing, .transcribing, .chunking, .embedding,
         .completed] := by
  have h1 : ¬ ((10 : ℚ) - 0 > 120) := by norm_num
  have hp : pstrip (strL "hi") = strL "hi" := by decide
  have hn : strL "hi" ≠ [] := by decide
  have hw : ¬ ((words (strL "hi")).length > 200) := by decide
  have hnn : normalize (strL "hi") ≠ [] := by decide
  have hchunks : createTranscriptChunks (strL "v") (fun _ => [])
      [⟨0, 10, strL "hi"⟩] .hybrid ≠ [] := by
    simp [createTranscriptChunks, rawChunks, chunkByTime, timeStep,
      hybridSplit, h1, hp, hn, hw, hnn, List.enum, List.enumFrom]
  have hev : (fullRunWrites
      { audioOk := true, transcription := some [⟨0, 10, strL "hi"⟩],
        saveChunksOk := true, freshId := fun _ => [] }
      { dbChunks := [{ id := strL "i1", video_id := strL "v",
                       text := strL "hi", start_time := 0, end_time := 10,
                       chunk_index := 0, word_count := 1 }], embedOk := true }
      (mkUploadMeta (strL "v") (strL "f.mp4") none 10 1)).map DbWrite.status
      = [.uploading, .processing, .uploading, .transcribing, .chunking,
         .uploading, .embedding, .embedding, .completed] := by
    simp [fullRunWrites, processVideo, processVideoEmbeddings, mkUploadMeta,
      hchunks, DbWrite.status]
  rw [hev]
  decide

end LectureRag
